import Mathlib

/-!
Shallow embedding of the `ai-companion` behavior-tree and memory subsystems
(`src/behavior-tree/behavior_tree.py`, `src/memory/memory_system.py`).

Conventions of the embedding:
* `datetime` values are modelled as `Int` seconds; `datetime.now()` calls are
  made explicit as a `now : Int` parameter of each operation that reads the
  clock; `datetime.min` is the constant `datetimeMin`.
* Python dictionaries with string keys are modelled as association lists
  `List (String × _)` preserving insertion order (CPython dicts are ordered);
  assignment to an existing key rewrites in place, a new key is appended.
* Raised exceptions are modelled with `Except`; every `raise` in the source
  happens before any mutation, so an `.error` result stands for an unchanged
  manager.
* Condition strings are evaluated by `\x7bkey\x7d` substitution followed by `eval`
  in the source; per spec §4.1/§9 this is a restricted boolean-expression
  evaluator interface.  We model the evaluated fragment as the inductive
  `CondExpr` (`"True"`, and `"\x7bkey\x7d>c"` comparisons); an unbound key or
  evaluation failure yields `false`, exactly as the source logs and returns
  `False` on exception.
-/

namespace DeltaAgent

/-- The `datetime.min` as seconds relative to the epoch (any value far below every
`now` used by the system; `datetime.min` is year 1). -/
def datetimeMin : Int := -62135596800

/-- The `StateType` enum of `behavior_tree.py`. -/
inductive StateType where
  | action
  | condition
  | composite
  | root
deriving DecidableEq, Repr

/-- The `StateStatus` enum of `behavior_tree.py`. -/
inductive StateStatus where
  | running
  | success
  | failure
  | idle
deriving DecidableEq, Repr

/-- The restricted condition-expression fragment evaluated by
`BehaviorState._evaluate_condition` ( `\x7bkey\x7d` substitution then `eval` ).
`litTrue` is the literal string `"True"`; `gtVar k c` is the string
`"\x7bk\x7d>c"`. -/
inductive CondExpr where
  | litTrue
  | gtVar (key : String) (c : Int)
deriving DecidableEq, Repr

/-- Execution context `context : Dict[str, Any]`, restricted to the integer
values the condition fragment compares. -/
abbrev Ctx := List (String × Int)

/-- The `BehaviorState._evaluate_condition`: substitute `\x7bkey\x7d` placeholders and
evaluate.  A key absent from the context leaves the placeholder in the string,
`eval` raises, and the exception handler returns `False`. -/
def evalCondition (ctx : Ctx) : CondExpr → Bool
  | .litTrue => true
  | .gtVar key c =>
      match ctx.find? (fun p => p.1 = key) with
      | some p => decide (c < p.2)
      | none => false

/-- The `StateMetadata` dataclass. -/
structure StateMetadata where
  created_at : Int
  modified_at : Int
  created_by : String
  execution_count : Nat
  last_execution : Option Int
  average_duration : ℚ
  tags : List String
deriving DecidableEq, Repr

/-- Default `StateMetadata()` (both timestamps from `datetime.now()`). -/
def StateMetadata.default (now : Int) : StateMetadata :=
  { created_at := now
    modified_at := now
    created_by := "system"
    execution_count := 0
    last_execution := none
    average_duration := 0
    tags := [] }

/-- The `StateDefinition` dataclass. -/
structure StateDefinition where
  id : String
  name : String
  type : StateType
  priority : Int
  conditions : List CondExpr
  actions : List String
  children : List String
  metadata : StateMetadata
  timeout_seconds : Int
deriving DecidableEq, Repr

/-- The nested `"metadata"` dictionary produced by `StateDefinition.to_dict`
(ISO timestamp strings are modelled by the `Int` they encode; `isoformat` /
`fromisoformat` round-trip exactly). -/
structure MetadataDict where
  created_at : Int
  modified_at : Int
  created_by : String
  execution_count : Nat
  last_execution : Option Int
  average_duration : ℚ
  tags : List String
deriving DecidableEq, Repr

/-- The dictionary produced by `StateDefinition.to_dict` (the `type.value`
string is modelled by the enum member it encodes; `StateType(value)` inverts
`type.value` exactly). -/
structure StateDict where
  id : String
  name : String
  type : StateType
  priority : Int
  conditions : List CondExpr
  actions : List String
  children : List String
  timeout_seconds : Int
  metadata : MetadataDict
deriving DecidableEq, Repr

/-- The `StateDefinition.to_dict`. -/
def StateDefinition.to_dict (d : StateDefinition) : StateDict :=
  { id := d.id
    name := d.name
    type := d.type
    priority := d.priority
    conditions := d.conditions
    actions := d.actions
    children := d.children
    timeout_seconds := d.timeout_seconds
    metadata :=
      { created_at := d.metadata.created_at
        modified_at := d.metadata.modified_at
        created_by := d.metadata.created_by
        execution_count := d.metadata.execution_count
        last_execution := d.metadata.last_execution
        average_duration := d.metadata.average_duration
        tags := d.metadata.tags } }

/-- The `StateDefinition.from_dict`. -/
def StateDefinition.from_dict (data : StateDict) : StateDefinition :=
  { id := data.id
    name := data.name
    type := data.type
    priority := data.priority
    conditions := data.conditions
    actions := data.actions
    children := data.children
    metadata :=
      { created_at := data.metadata.created_at
        modified_at := data.metadata.modified_at
        created_by := data.metadata.created_by
        execution_count := data.metadata.execution_count
        last_execution := data.metadata.last_execution
        average_duration := data.metadata.average_duration
        tags := data.metadata.tags }
    timeout_seconds := data.timeout_seconds }

/-- A registered `BehaviorState` object as the manager observes it: its
`definition` and its ownership list `self.children` of attached child
objects, recorded by each attached object's `definition.id` (which is what
`remove_child` filters on). -/
structure Node where
  defn : StateDefinition
  objChildren : List String
deriving DecidableEq, Repr

/-- The `StateDefinition` built by `RootState.__init__` (fresh default
metadata from `datetime.now()`, empty children). -/
def rootStateDefinition (now : Int) : StateDefinition :=
  { id := "root"
    name := "Root State"
    type := .root
    priority := 10
    conditions := []
    actions := []
    children := []
    metadata := StateMetadata.default now
    timeout_seconds := 300 }

/-- A freshly constructed `RootState()`. -/
def rootNode (now : Int) : Node :=
  { defn := rootStateDefinition now, objChildren := [] }

/-- The `StateFactory.create_state`: for `StateType.ROOT` it constructs
`RootState()` and **discards the supplied definition**; every other type
wraps the given definition with no attached children. -/
def createStateNode (d : StateDefinition) (now : Int) : Node :=
  if d.type = .root then rootNode now
  else { defn := d, objChildren := [] }

/-- The `BehaviorTreeManager`: the `states` registry (`id → BehaviorState`),
the modification-cooldown configuration and the last-modification stamp. -/
structure Manager where
  states : List (String × Node)
  lastModification : Int
  modificationCooldown : Int
deriving DecidableEq, Repr

/-- The `BehaviorTreeManager.__init__` with no persisted states file. -/
def newManager (now : Int) : Manager :=
  { states := [("root", rootNode now)]
    lastModification := datetimeMin
    modificationCooldown := 60 }

/-- The `state_id in self.states`. -/
def containsState (states : List (String × Node)) (id : String) : Bool :=
  states.any (fun p => p.1 = id)

/-- The `self.states.get(state_id)` / `self.states[state_id]`. -/
def lookupNode (states : List (String × Node)) (id : String) : Option Node :=
  (states.find? (fun p => p.1 = id)).map (fun p => p.2)

/-- In-place update of the value stored under a key (Python mutates the
object held in the dict; insertion order is unchanged). -/
def updateEntry (states : List (String × Node)) (id : String)
    (f : Node → Node) : List (String × Node) :=
  states.map (fun p => if p.1 = id then (p.1, f p.2) else p)

/-- Errors raised as `BehaviorTreeError` by the manager, keyed by message. -/
inductive BTErr where
  | stateExists (id : String)
  | parentNotFound (id : String)
  | notFound (id : String)
  | cooldownActive
  | cannotRemoveRoot
deriving DecidableEq, Repr

/-- The `BehaviorTreeManager.add_state` (`save_states` writes the file and does
not change the observable registry). -/
def add_state (m : Manager) (definition : StateDefinition)
    (parent_id : String) (now : Int) : Except BTErr Manager :=
  if containsState m.states definition.id then
    .error (.stateExists definition.id)
  else if ¬ containsState m.states parent_id then
    .error (.parentNotFound parent_id)
  else
    let state := createStateNode definition now
    let states1 := m.states ++ [(definition.id, state)]
    let states2 := updateEntry states1 parent_id (fun parent =>
      let parent1 := { parent with
        objChildren := parent.objChildren ++ [state.defn.id] }
      if definition.id ∈ parent1.defn.children then parent1
      else { parent1 with defn := { parent1.defn with
        children := parent1.defn.children ++ [definition.id] } })
    .ok { m with states := states2 }

/-- The `list.remove(x)` on a Python list: drops the first occurrence. -/
def removeFirst (x : String) : List String → List String
  | [] => []
  | y :: ys => if y = x then ys else y :: removeFirst x ys

/-- The `BehaviorTreeManager.remove_state`. -/
def remove_state (m : Manager) (state_id : String) : Except BTErr Manager :=
  if state_id = "root" then .error .cannotRemoveRoot
  else if ¬ containsState m.states state_id then
    .error (.notFound state_id)
  else
    let states1 := m.states.map (fun p =>
      if state_id ∈ p.2.defn.children then
        (p.1, { defn := { p.2.defn with
                  children := removeFirst state_id p.2.defn.children }
                objChildren := p.2.objChildren.filter (fun c => c ≠ state_id) })
      else p)
    .ok { m with states := states1.filter (fun p => p.1 ≠ state_id) }

/-- The field updates of a `modify_state(state_id, updates)` call, covering
the assignable non-derived `StateDefinition` fields the spec discusses
(`hasattr` holds for each, so every provided entry is applied). -/
structure StateUpdates where
  name : Option String := none
  priority : Option Int := none
  conditions : Option (List CondExpr) := none
  actions : Option (List String) := none
  children : Option (List String) := none
  timeout_seconds : Option Int := none
deriving DecidableEq, Repr

/-- The `setattr` loop of `modify_state`. -/
def applyUpdates (d : StateDefinition) (u : StateUpdates) : StateDefinition :=
  { d with
    name := u.name.getD d.name
    priority := u.priority.getD d.priority
    conditions := u.conditions.getD d.conditions
    actions := u.actions.getD d.actions
    children := u.children.getD d.children
    timeout_seconds := u.timeout_seconds.getD d.timeout_seconds }

/-- The `BehaviorTreeManager.create_backup`. -/
def create_backup (m : Manager) : List (String × StateDict) :=
  m.states.map (fun p => (p.1, p.2.defn.to_dict))

/-- The `BehaviorTreeManager._rebuild_tree_structure`: clear every ownership
list, then re-attach, for each state in registry order, the object registered
under each listed child id (ids with no registry entry are skipped). -/
def rebuildStructure (states : List (String × Node)) : List (String × Node) :=
  states.map (fun p =>
    (p.1, { p.2 with
      objChildren := p.2.defn.children.filterMap (fun c =>
        (lookupNode states c).map (fun n => n.defn.id)) }))

/-- The `BehaviorTreeManager.restore_backup`: clear the registry, re-create every
state from its serialized definition (`StateFactory.create_state`, which for
the ROOT type discards the definition and builds a fresh `RootState()`), then
rebuild the ownership links. -/
def restore_backup (m : Manager) (backup : List (String × StateDict))
    (now : Int) : Manager :=
  { m with states := rebuildStructure (backup.map (fun p =>
      (p.1, createStateNode (StateDefinition.from_dict p.2) now))) }

/-- The `for child_id in state.definition.children` loop of `check_cycles`
(`f` is the recursive call one level deeper), returning `False` at the first
failing child and threading the shared `visited` set. -/
def checkChildrenLoop (f : List String → List String → String → Bool × List String) :
    List String → List String → List String → Bool × List String
  | visited, _, [] => (true, visited)
  | visited, path, c :: rest =>
      let r := f visited path c
      if r.1 then checkChildrenLoop f r.2 path rest
      else (false, r.2)

/-- The recursion of `validate_tree.check_cycles` (shared `visited` set,
per-branch `path` copies), made total with a fuel argument; the top-level
call supplies fuel exceeding the deepest possible recursion, so the
fuel-exhausted branch is never taken. -/
def checkCycles (states : List (String × Node)) :
    Nat → List String → List String → String → Bool × List String
  | 0 => fun visited _ _ => (false, visited)
  | fuel + 1 => fun visited path state_id =>
      if state_id ∈ path then (false, visited)
      else if state_id ∈ visited then (true, visited)
      else
        let visited1 := state_id :: visited
        let path1 := state_id :: path
        match lookupNode states state_id with
        | none => (false, visited1)
        | some st =>
            checkChildrenLoop (checkCycles states fuel) visited1 path1
              st.defn.children

/-- The `BehaviorTreeManager.validate_tree`. -/
def validate_tree (m : Manager) : Bool :=
  (checkCycles m.states (m.states.length + 2) [] [] "root").1

/-- The `BehaviorTreeManager.modify_state`.  Raises (`.error`) on an unknown id
or an active cooldown; otherwise snapshots, applies the updates, stamps
`metadata.modified_at` and `last_modification`, and validates — returning
`(manager, false)` after `restore_backup` when validation fails, and
`(manager, true)` on success. -/
def modify_state (m : Manager) (state_id : String) (updates : StateUpdates)
    (now : Int) : Except BTErr (Manager × Bool) :=
  if ¬ containsState m.states state_id then
    .error (.notFound state_id)
  else if now - m.lastModification < m.modificationCooldown then
    .error .cooldownActive
  else
    let backup := create_backup m
    let m1 := { m with states := updateEntry m.states state_id (fun n =>
      let d := applyUpdates n.defn updates
      { n with defn := { d with metadata := { d.metadata with
          modified_at := now } } }) }
    let m2 := { m1 with lastModification := now }
    if validate_tree m2 then .ok (m2, true)
    else .ok (restore_backup m2 backup now, false)

/-! ### Stable sorting

`sorted(seq, key=..., reverse=True)` in CPython is a stable sort: the output
is ordered by descending key and elements with equal keys keep their original
relative order.  `sSort before l` models it, where `before x y` means "x must
come strictly before y" (for the composite it is `x.priority > y.priority`);
stability, sortedness and permutation are proved below. -/

/-- Stable insertion: `x` is placed before the first element that must come
strictly before it fails to... i.e. `x` moves past every `y` with
`before y x`. -/
def sInsert (before : α → α → Bool) (x : α) : List α → List α
  | [] => [x]
  | y :: ys => if before y x then y :: sInsert before x ys else x :: y :: ys

/-- Stable sort by the strict "must come before" relation `before`. -/
def sSort (before : α → α → Bool) : List α → List α
  | [] => []
  | x :: xs => sInsert before x (sSort before xs)

theorem sInsert_perm (before : α → α → Bool) (x : α) (l : List α) :
    List.Perm (sInsert before x l) (x :: l) := by
  induction l with
  | nil => simp [sInsert]
  | cons y ys ih =>
      by_cases h : before y x = true
      · simpa [sInsert, h] using
          ((ih.cons y).trans (List.Perm.swap x y ys))
      · simp [sInsert, h]

/-- The sorted list is a permutation of the input. -/
theorem sSort_perm (before : α → α → Bool) (l : List α) :
    List.Perm (sSort before l) l := by
  induction l with
  | nil => simp [sSort]
  | cons x xs ih => exact (sInsert_perm before x (sSort before xs)).trans (ih.cons x)

/-- "Must come strictly before" for a descending sort keyed by `key`
(`sorted(key=key, reverse=True)`). -/
def keyBefore (key : α → Int) (a b : α) : Bool := decide (key b < key a)

/-! ### Runtime execution (`BehaviorState.execute` and subclasses)

The object tree is modelled as a recursive tree: each `BehaviorState` holds
its definition and its attached child objects, and `kind` records which
Python class the object is.  Wall time is an explicit clock (`Int` seconds):
the only suspension points are awaited actions (spec §5), so each
`_execute_action` call advances the clock by the duration reported by the
external action runner; the source's placeholder runner always succeeds with
no delay.  `execute` returns the status, the clock after the call, and the
trace of `(state id, action)` pairs actually dispatched. -/

/-- A `BehaviorState` object with its attached children. -/
inductive BTree where
  | node (kind : StateType) (defn : StateDefinition) (children : List BTree)

/-- The `definition` of a state object. -/
def BTree.defn : BTree → StateDefinition
  | .node _ d _ => d

/-- The external action-runner interface behind `_execute_action`: success
flag and wall-clock duration of the awaited action.  The source's
placeholder is `placeholderRunner`. -/
abbrev ActionRunner := String → Ctx → Bool × Nat

/-- The `ActionState._execute_action` as implemented: always succeeds
(and, being a pure stub, takes no wall time). -/
def placeholderRunner : ActionRunner := fun _ _ => (true, 0)

/-- The `BehaviorState.can_execute`: every condition must evaluate true
(evaluation failure counts as false). -/
def canExecute (d : StateDefinition) (ctx : Ctx) : Bool :=
  d.conditions.all (evalCondition ctx)

/-- The action loop of `ActionState.execute`: run each action in order;
abort with Failure on the first unsuccessful action, then on a timeout check
(`is_timed_out`) after each action. -/
def runActions (runner : ActionRunner) (d : StateDefinition) (ctx : Ctx)
    (start : Int) : List String → Int → StateStatus × Int × List (String × String)
  | [], clk => (.success, clk, [])
  | a :: rest, clk =>
      let r := runner a ctx
      let clk1 := clk + (r.2 : Int)
      if r.1 = false then (.failure, clk1, [(d.id, a)])
      else if d.timeout_seconds < clk1 - start then (.failure, clk1, [(d.id, a)])
      else
        let r2 := runActions runner d ctx start rest clk1
        (r2.1, r2.2.1, (d.id, a) :: r2.2.2)

/-- The child sort key of `CompositeState.execute`
(`sorted(self.children, key=lambda x: x.definition.priority, reverse=True)`). -/
def childPriority (c : BTree) : Int := c.defn.priority

theorem sizeOf_perm_eq {l₁ l₂ : List BTree} (h : List.Perm l₁ l₂) :
    sizeOf l₁ = sizeOf l₂ := by
  induction h with
  | nil => rfl
  | cons x _ ih => simp [ih]
  | swap x y l => simp; omega
  | trans _ _ ih₁ ih₂ => omega

theorem sizeOf_sSort (before : BTree → BTree → Bool) (l : List BTree) :
    sizeOf (sSort before l) = sizeOf l :=
  sizeOf_perm_eq (sSort_perm before l)

mutual

/-- The `execute` of the four `BehaviorState` subclasses (the `RootState`
subclass inherits `CompositeState.execute`). -/
def execute (runner : ActionRunner) :
    BTree → Ctx → Int → StateStatus × Int × List (String × String)
  | .node .action d _, ctx, clk =>
      if canExecute d ctx then runActions runner d ctx clk d.actions clk
      else (.failure, clk, [])
  | .node .condition d _, ctx, clk =>
      ((if canExecute d ctx then .success else .failure), clk, [])
  | .node .composite d cs, ctx, clk =>
      if canExecute d ctx then
        execChildren runner d ctx clk (sSort (keyBefore childPriority) cs) clk
      else (.failure, clk, [])
  | .node .root d cs, ctx, clk =>
      if canExecute d ctx then
        execChildren runner d ctx clk (sSort (keyBefore childPriority) cs) clk
      else (.failure, clk, [])
termination_by t _ _ => sizeOf t
decreasing_by
  all_goals simp_wf
  all_goals rw [sizeOf_sSort]
  all_goals omega

/-- The child loop of `CompositeState.execute`: timeout check before each
dispatch, abort on the first Failure (Failure) or Running (Running), Success
once every child has succeeded. -/
def execChildren (runner : ActionRunner) (d : StateDefinition) (ctx : Ctx)
    (start : Int) :
    List BTree → Int → StateStatus × Int × List (String × String)
  | [], clk => (.success, clk, [])
  | c :: rest, clk =>
      if d.timeout_seconds < clk - start then (.failure, clk, [])
      else
        let r := execute runner c ctx clk
        match r.1 with
        | .failure => (.failure, r.2.1, r.2.2)
        | .running => (.running, r.2.1, r.2.2)
        | _ =>
            let r2 := execChildren runner d ctx start rest r.2.1
            (r2.1, r2.2.1, r.2.2 ++ r2.2.2)
termination_by l _ => sizeOf l
decreasing_by
  all_goals simp_wf
  all_goals omega

end


/-! ### Memory system (`memory_system.py`)

The SQLite table of `MemoryStorage` is modelled as a `List Memory` in
insertion order whose `id` column is the primary key; `ORDER BY importance
DESC, timestamp DESC` is modelled by the stable sort `sSort sqlBefore`
(SQLite leaves the order of tied rows unspecified; no claim below depends on
how ties are broken).  Pickling of the opaque `content` payload always
round-trips in the model, so the "deserialization failure → skip row" branch
of `find_memories` is never taken.  The background consolidation task that
`store_memory` may schedule is a separate operation (`consolidate`); it is
not part of the synchronous `store_memory` transition, which returns
immediately (spec §4.5). -/

/-- The `MemoryType` enum. -/
inductive MemoryType where
  | episodic
  | semantic
  | working
  | procedural
deriving DecidableEq, Repr

/-- The opaque `content` payload: a Python `str`, or any non-string value
(everything `isinstance(content, str)`-negative behaves alike in the
modelled code paths). -/
inductive MemContent where
  | str (s : String)
  | other
deriving DecidableEq, Repr

/-- The context dictionary read by `ImportanceCalculator`: the keys
`'tags'`, `'current_states'` and `'content'` with their `.get` defaults. -/
structure ImportanceContext where
  tags : List String := []
  current_states : List String := []
  content : String := ""
deriving DecidableEq, Repr

/-- The `Memory` dataclass. -/
structure Memory where
  id : String
  content : MemContent
  type : MemoryType
  importance : ℚ
  timestamp : Int
  associated_states : List String
  access_count : Nat
  last_accessed : Option Int
  tags : List String
  context : ImportanceContext
deriving DecidableEq, Repr

/-- Python `str.split()` (split on whitespace runs, dropping empties). -/
def pyWords (s : String) : List String :=
  (s.split (fun c => c.isWhitespace)).filter (fun w => w ≠ "")

/-- The `len(set(a) & set(b))`. -/
def setInterSize (l₁ l₂ : List String) : Nat :=
  (l₁.dedup.filter (fun x => l₂.contains x)).length

/-- The `pat in s` for a non-empty pattern string. -/
def strContainsSub (s pat : String) : Bool :=
  (s.splitOn pat).length ≥ 2

/-- The tag-overlap term of `ImportanceCalculator._calculate_relevance`:
`len(set(ctx) & set(mem)) / max(len(ctx), len(mem))`, contributed only when
both tag lists are non-empty. -/
def tagOverlapTerm (memory : Memory) (context : ImportanceContext) : ℚ :=
  if context.tags ≠ [] ∧ memory.tags ≠ [] then
    (setInterSize context.tags memory.tags : ℚ) /
      (max context.tags.length memory.tags.length : ℚ)
  else 0

/-- The associated-state overlap term of `_calculate_relevance`. -/
def stateOverlapTerm (memory : Memory) (context : ImportanceContext) : ℚ :=
  if context.current_states ≠ [] ∧ memory.associated_states ≠ [] then
    (setInterSize context.current_states memory.associated_states : ℚ) /
      (max context.current_states.length memory.associated_states.length : ℚ)
  else 0

/-- The content word-overlap term of `_calculate_relevance`: requires a
truthy context content string, a string memory payload, and non-empty word
sets on both sides. -/
def contentOverlapTerm (memory : Memory) (context : ImportanceContext) : ℚ :=
  match memory.content with
  | .str s =>
      if context.content ≠ "" then
        let current_words := (pyWords context.content.toLower).dedup
        let memory_words := (pyWords s.toLower).dedup
        if current_words ≠ [] ∧ memory_words ≠ [] then
          ((current_words.filter (fun w => memory_words.contains w)).length : ℚ) /
            (max current_words.length memory_words.length : ℚ)
        else 0
      else 0
  | .other => 0

/-- The `ImportanceCalculator._calculate_relevance`. -/
def calcRelevance (memory : Memory) (context : ImportanceContext) : ℚ :=
  min 1 (tagOverlapTerm memory context + stateOverlapTerm memory context +
    contentOverlapTerm memory context)

def positiveWords : List String :=
  ["happy", "joy", "excited", "great", "wonderful", "amazing"]

def negativeWords : List String :=
  ["sad", "angry", "frustrated", "terrible", "awful", "hate"]

def importantWords : List String :=
  ["important", "critical", "urgent", "remember", "key"]

/-- The `ImportanceCalculator._extract_emotional_weight`.  Decimal float
literals of the source are written `mkRat` (`mkRat 5 10` is `0.5`), which
the kernel can evaluate. -/
def extractEmotionalWeight (memory : Memory) : ℚ :=
  match memory.content with
  | .other => mkRat 5 10
  | .str s =>
      let content := s.toLower
      let positive_count :=
        (positiveWords.filter (fun w => strContainsSub content w)).length
      let negative_count :=
        (negativeWords.filter (fun w => strContainsSub content w)).length
      let important_count :=
        (importantWords.filter (fun w => strContainsSub content w)).length
      min 1 (max 0 (mkRat 5 10 +
        ((positive_count + negative_count + important_count : Nat) : ℚ) *
          mkRat 1 10))

/-- The `ImportanceCalculator.calculate_importance`. -/
def calculate_importance (now : Int) (memory : Memory)
    (context : ImportanceContext) : ℚ :=
  let time_diff : ℚ := ((now - memory.timestamp : Int) : ℚ)
  let recency := max (mkRat 1 10) (1 - time_diff / (30 * 24 * 3600))
  let frequency := min 1 ((memory.access_count : ℚ) / 10)
  let relevance := calcRelevance memory context
  let emotional := extractEmotionalWeight memory
  let state_association :=
    min 1 ((memory.associated_states.length : ℚ) * mkRat 2 10)
  let weighted_score := recency * mkRat 3 10 + frequency * mkRat 2 10 +
    relevance * mkRat 3 10 + emotional * mkRat 1 10 +
    state_association * mkRat 1 10
  max 0 (min 1 weighted_score)

/-- The `ORDER BY importance DESC, timestamp DESC` as a strict
"must come before" relation. -/
def sqlBefore (a b : Memory) : Bool :=
  decide (b.importance < a.importance ∨
    (a.importance = b.importance ∧ b.timestamp < a.timestamp))

/-- The SQL `WHERE` clause of `find_memories`: `importance >= ?` plus the
optional `AND type = ?`. -/
def rowCriteria (memory_type : Option MemoryType) (min_importance : ℚ)
    (m : Memory) : Bool :=
  decide (min_importance ≤ m.importance) &&
    (match memory_type with
     | some t => decide (m.type = t)
     | none => true)

/-- The `MemoryStorage.find_memories`: SQL row selection (importance floor and
optional type), ordering and `LIMIT`, followed by the Python-side tag filter
applied to the limited rows (`if tags and not any(tag in memory.tags ...):
continue`). -/
def find_memories (store : List Memory) (memory_type : Option MemoryType)
    (min_importance : ℚ) (limit : Nat) (tags : Option (List String)) :
    List Memory :=
  let rows := store.filter (rowCriteria memory_type min_importance)
  let ordered := (sSort sqlBefore rows).take limit
  match tags with
  | some ts =>
      if ts ≠ [] then
        ordered.filter (fun m => ts.any (fun t => m.tags.contains t))
      else ordered
  | none => ordered

/-- The `MemoryStorage.retrieve_memory` (row lookup by primary key). -/
def storageRetrieve (store : List Memory) (memory_id : String) :
    Option Memory :=
  store.find? (fun m => m.id = memory_id)

/-- The `MemoryStorage.store_memory` (`INSERT OR REPLACE` keyed on `id`). -/
def storagePut (store : List Memory) (memory : Memory) : List Memory :=
  if store.any (fun m => m.id = memory.id) then
    store.map (fun m => if m.id = memory.id then memory else m)
  else store ++ [memory]

/-- The `MemoryStorage.delete_memory`. -/
def storageDelete (store : List Memory) (memory_id : String) : List Memory :=
  store.filter (fun m => m.id ≠ memory_id)

/-- The `MemoryManager`'s mutable state: the durable store and the in-process
working-memory cache (`self.working_memory`, an ordered dict). -/
structure MemManagerState where
  store : List Memory
  working : List (String × Memory)
deriving DecidableEq, Repr

/-- Assignment `d[k] = v` on a Python dict. -/
def dictPut (d : List (String × Memory)) (k : String) (v : Memory) :
    List (String × Memory) :=
  if d.any (fun p => p.1 = k) then
    d.map (fun p => if p.1 = k then (k, v) else p)
  else d ++ [(k, v)]

/-- The `MemoryManager.store_memory`: build the record (fresh
`uuid4` id supplied as `newId`), compute its initial importance, then route
Working-type records into the cache and every other type into the durable
store.  (The consolidation pass possibly scheduled afterwards is the
separate background operation `consolidate`.) -/
def store_memory (st : MemManagerState) (newId : String)
    (content : MemContent) (memory_type : MemoryType) (tags : List String)
    (context : ImportanceContext) (associated_states : List String)
    (now : Int) : String × MemManagerState :=
  let memory : Memory :=
    { id := newId
      content := content
      type := memory_type
      importance := mkRat 5 10
      timestamp := now
      associated_states := associated_states
      access_count := 0
      last_accessed := none
      tags := tags
      context := context }
  let memory := { memory with
    importance := calculate_importance now memory context }
  if memory_type = .working then
    (newId, { st with working := dictPut st.working newId memory })
  else
    (newId, { st with store := storagePut st.store memory })

/-- The `MemoryManager.retrieve_memory`: working cache first, then the durable
store; on a hit, bump the access stats, recompute importance with an empty
context, and re-persist durable types.  The found object is shared with the
cache, so a cache hit updates the cached record in place. -/
def retrieve_memory (st : MemManagerState) (memory_id : String) (now : Int) :
    Option Memory × MemManagerState :=
  let found : Option Memory :=
    match st.working.find? (fun p => p.1 = memory_id) with
    | some p => some p.2
    | none => storageRetrieve st.store memory_id
  match found with
  | none => (none, st)
  | some memory =>
      let m1 := { memory with
        access_count := memory.access_count + 1
        last_accessed := some now }
      let m2 := { m1 with importance := calculate_importance now m1 {} }
      let st1 :=
        if st.working.any (fun p => p.1 = memory_id) then
          { st with working := st.working.map (fun p =>
              if p.1 = memory_id then (p.1, m2) else p) }
        else st
      let st2 :=
        if m2.type ≠ .working then { st1 with store := storagePut st1.store m2 }
        else st1
      (some m2, st2)

/-- The `MemoryManager.clear_working_memory`. -/
def clear_working_memory (st : MemManagerState) : MemManagerState :=
  { st with working := [] }

/-- The candidate-id collection loop of
`MemoryManager._consolidate_memories`: for Episodic then Semantic, query up
to 1000 records and keep those older than 30 days with importance below 0.3
and access count below 2. -/
def consolidateCandidateIds (now : Int) (store : List Memory) : List String :=
  let collect := fun (t : MemoryType) =>
    (find_memories store (some t) 0 1000 none).filter (fun m =>
      decide (m.timestamp < now - 30 * 86400) &&
        decide (m.importance < mkRat 3 10) && decide (m.access_count < 2))
  ((collect .episodic ++ collect .semantic).map (fun m => m.id))

/-- The `MemoryManager._consolidate_memories`: delete the first 100 candidate
ids (`delete_memory` always reports success in the model, so the removed
count is the number of processed ids). -/
def consolidate (now : Int) (st : MemManagerState) : MemManagerState × Nat :=
  let toRemove := (consolidateCandidateIds now st.store).take 100
  ({ st with store := toRemove.foldl storageDelete st.store }, toRemove.length)


/-! ### Projections and concrete instances used by the verification -/

/-- The registered ids, in registry order. -/
def stateIds (m : Manager) : List String := m.states.map (fun p => p.1)

/-- The `definition.children` id list of a registered state. -/
def defChildrenOf (m : Manager) (id : String) : Option (List String) :=
  (lookupNode m.states id).map (fun n => n.defn.children)

/-- The child-ownership list (ids of attached `BehaviorState` objects) of a
registered state. -/
def objChildrenOf (m : Manager) (id : String) : Option (List String) :=
  (lookupNode m.states id).map (fun n => n.objChildren)

/-- The registry produced by restoring a snapshot of `m` at time `now`:
every definition deserializes back exactly, `StateFactory.create_state`
replaces ROOT-typed definitions by a fresh `RootState()`, and ownership
links are rebuilt. -/
def restoredStates (m : Manager) (now : Int) : List (String × Node) :=
  rebuildStructure (m.states.map (fun p => (p.1, createStateNode p.2.defn now)))

/-- Error-projection of a manager call result. -/
def projErr {α : Type} : Except BTErr α → Option BTErr
  | .error e => some e
  | .ok _ => none

def exDefA : StateDefinition :=
  { id := "a", name := "A", type := .action, priority := 5, conditions := [],
    actions := ["act1"], children := [], metadata := StateMetadata.default 0,
    timeout_seconds := 300 }

def exDefB : StateDefinition :=
  { id := "b", name := "B", type := .action, priority := 7, conditions := [],
    actions := ["act2"], children := [], metadata := StateMetadata.default 0,
    timeout_seconds := 300 }

/-- The manager reached from a fresh manager by `add_state(exDefA)`. -/
def exM1 : Manager :=
  match add_state (newManager 0) exDefA "root" 0 with
  | .ok m => m
  | .error _ => newManager 0

/-- The manager reached from a fresh manager by `add_state(exDefB)`. -/
def exMb : Manager :=
  match add_state (newManager 0) exDefB "root" 0 with
  | .ok m => m
  | .error _ => newManager 0

/-- The `exMb` followed by `add_state(exDefA)`. -/
def exMba : Manager :=
  match add_state exMb exDefA "root" 0 with
  | .ok m => m
  | .error _ => exMb

/-- The scenario node `a1` of spec §8: an Action with priority 5, the single
condition `"\x7bx\x7d>0"`, one action and a 1-second timeout. -/
def a1Defn : StateDefinition :=
  { id := "a1", name := "Action 1", type := .action, priority := 5,
    conditions := [.gtVar "x" 0], actions := ["act1"], children := [],
    metadata := StateMetadata.default 0, timeout_seconds := 1 }

def a1Tree : BTree := .node .action a1Defn []

def loDefn : StateDefinition :=
  { id := "lo", name := "Low", type := .action, priority := 1,
    conditions := [], actions := ["loAct"], children := [],
    metadata := StateMetadata.default 0, timeout_seconds := 300 }

def hiDefn : StateDefinition :=
  { id := "hi", name := "High", type := .action, priority := 10,
    conditions := [], actions := ["hiAct"], children := [],
    metadata := StateMetadata.default 0, timeout_seconds := 300 }

def compDefn : StateDefinition :=
  { id := "comp", name := "Comp", type := .composite, priority := 5,
    conditions := [], actions := [], children := ["lo", "hi"],
    metadata := StateMetadata.default 0, timeout_seconds := 300 }

/-- A composite whose attached children are listed low-priority first. -/
def compTree : BTree :=
  .node .composite compDefn [.node .action loDefn [], .node .action hiDefn []]

/-- Result manager of the validation-failing call
`modify_state("a", \x7bchildren: ["missing"]\x7d)` on `exM1`. -/
def exFailRes : Manager :=
  match modify_state exM1 "a" { children := some ["missing"] } 100 with
  | .ok (m', _) => m'
  | .error _ => exM1

/-- Result manager of the successful call
`modify_state("a", \x7bname: "A2"\x7d)` on `exM1`. -/
def exSuccRes : Manager :=
  match modify_state exM1 "a" { name := some "A2" } 100 with
  | .ok (m', _) => m'
  | .error _ => exM1

def exRebuiltRoot : Node :=
  match lookupNode (rebuildStructure exM1.states) "root" with
  | some n => n
  | none => rootNode 0

def exMemOld : Memory :=
  { id := "m1", content := .str "hello", type := .episodic,
    importance := mkRat 1 10,
    timestamp := 0, associated_states := [], access_count := 0,
    last_accessed := none, tags := ["x"], context := {} }

def exMemKeep : Memory :=
  { id := "m2", content := .str "a great day", type := .semantic,
    importance := mkRat 9 10, timestamp := 0, associated_states := [],
    access_count := 5, last_accessed := none, tags := [], context := {} }

def exMemStore : List Memory := [exMemKeep, exMemOld]

def exMemMgr : MemManagerState := { store := [exMemKeep], working := [] }

/-! ## Theorems -/

theorem from_dict_to_dict (d : StateDefinition) :
    StateDefinition.from_dict d.to_dict = d := rfl

theorem sInsert_pairwise (before : α → α → Bool)
    (hasym : ∀ a b, before a b = true → before b a = false)
    (hntrans : ∀ a b c, before a b = false → before b c = false →
      before a c = false)
    (x : α) (l : List α) (hl : l.Pairwise (fun a b => before b a = false)) :
    (sInsert before x l).Pairwise (fun a b => before b a = false) := by
  induction l with
  | nil => simp [sInsert]
  | cons y ys ih =>
      rcases List.pairwise_cons.mp hl with ⟨hy, hys⟩
      by_cases h : before y x = true
      · rw [sInsert, if_pos h]
        refine List.pairwise_cons.mpr ⟨?_, ih hys⟩
        intro a ha
        rcases List.mem_cons.mp ((sInsert_perm before x ys).mem_iff.mp ha) with
          rfl | ha'
        · exact hasym y a h
        · exact hy a ha'
      · have h' : before y x = false := by simpa using h
        rw [sInsert, if_neg h]
        refine List.pairwise_cons.mpr ⟨?_, hl⟩
        intro a ha
        rcases List.mem_cons.mp ha with rfl | ha'
        · exact h'
        · exact hntrans a y x (hy a ha') h'

/-- Output of `sSort` has no inversions with respect to `before`. -/
theorem sSort_pairwise (before : α → α → Bool)
    (hasym : ∀ a b, before a b = true → before b a = false)
    (hntrans : ∀ a b c, before a b = false → before b c = false →
      before a c = false)
    (l : List α) :
    (sSort before l).Pairwise (fun a b => before b a = false) := by
  induction l with
  | nil => simp [sSort]
  | cons x xs ih => exact sInsert_pairwise before hasym hntrans x _ ih

theorem keyBefore_asymm (key : α → Int) (a b : α)
    (h : keyBefore key a b = true) : keyBefore key b a = false := by
  simp only [keyBefore, decide_eq_true_eq] at h
  simpa [keyBefore] using le_of_lt h

theorem keyBefore_ntrans (key : α → Int) (a b c : α)
    (hab : keyBefore key a b = false) (hbc : keyBefore key b c = false) :
    keyBefore key a c = false := by
  simp only [keyBefore, decide_eq_false_iff_not, not_lt] at hab hbc ⊢
  exact le_trans hab hbc

/-- The `sSort` by descending key produces a list ordered by non-increasing
key. -/
theorem sSort_key_sorted (key : α → Int) (l : List α) :
    (sSort (keyBefore key) l).Pairwise (fun a b => key b ≤ key a) := by
  refine (sSort_pairwise (keyBefore key) (keyBefore_asymm key)
    (keyBefore_ntrans key) l).imp ?_
  intro a b h
  simpa [keyBefore, not_lt] using h

theorem filter_sInsert_of_key_ne (key : α → Int) (p : Int) (x : α)
    (hx : ¬ key x = p) (l : List α) :
    (sInsert (keyBefore key) x l).filter (fun a => key a = p) =
      l.filter (fun a => key a = p) := by
  induction l with
  | nil => simp [sInsert, hx]
  | cons y ys ih =>
      by_cases h : keyBefore key y x = true
      · rw [sInsert, if_pos h]
        by_cases hy : key y = p <;> simp [List.filter_cons, hy, ih]
      · rw [sInsert, if_neg h]
        simp [List.filter_cons, hx]

theorem filter_sInsert_of_key_eq (key : α → Int) (p : Int) (x : α)
    (hx : key x = p) (l : List α)
    (hl : l.Pairwise (fun a b => keyBefore key b a = false)) :
    (sInsert (keyBefore key) x l).filter (fun a => key a = p) =
      x :: l.filter (fun a => key a = p) := by
  induction l with
  | nil => simp [sInsert, hx]
  | cons y ys ih =>
      rcases List.pairwise_cons.mp hl with ⟨_, hys⟩
      by_cases h : keyBefore key y x = true
      · have hy : ¬ key y = p := by
          simp only [keyBefore, decide_eq_true_eq] at h
          omega
        rw [sInsert, if_pos h]
        simp [List.filter_cons, hy, ih hys]
      · rw [sInsert, if_neg h]
        simp [List.filter_cons, hx]

/-- Stability of `sSort` with a descending key: for every key value, the
elements carrying that key appear in the output exactly in their original
relative order. -/
theorem sSort_filter_stable (key : α → Int) (p : Int) (l : List α) :
    (sSort (keyBefore key) l).filter (fun a => key a = p) =
      l.filter (fun a => key a = p) := by
  induction l with
  | nil => simp [sSort]
  | cons x xs ih =>
      by_cases hx : key x = p
      · rw [sSort, filter_sInsert_of_key_eq key p x hx _
          (sSort_pairwise (keyBefore key) (keyBefore_asymm key)
            (keyBefore_ntrans key) xs), ih]
        simp [List.filter_cons, hx]
      · rw [sSort, filter_sInsert_of_key_ne key p x hx _, ih]
        simp [List.filter_cons, hx]

/-! ### Registry helper lemmas -/

theorem find?_map_keyPres {A B : Type} (l : List (String × A))
    (h : String × A → B) (k : String) :
    (l.map (fun p => (p.1, h p))).find? (fun p => p.1 = k) =
      (l.find? (fun p => p.1 = k)).map (fun p => (p.1, h p)) := by
  induction l with
  | nil => rfl
  | cons p l ih =>
      by_cases hk : p.1 = k
      · simp [List.find?_cons, hk]
      · simp [List.find?_cons, hk, ih]

theorem lookupNode_map (l : List (String × Node)) (h : String × Node → Node)
    (k : String) :
    lookupNode (l.map (fun p => (p.1, h p))) k =
      (l.find? (fun p => p.1 = k)).map (fun p => h p) := by
  rw [lookupNode, find?_map_keyPres]
  cases l.find? (fun p => p.1 = k) <;> rfl

theorem containsState_map (l : List (String × Node)) (h : String × Node → Node)
    (k : String) :
    containsState (l.map (fun p => (p.1, h p))) k = containsState l k := by
  simp only [containsState, List.any_map]
  rfl

theorem stateIds_of_map (l : List (String × Node)) (h : String × Node → Node) :
    (l.map (fun p => (p.1, h p))).map (fun p => p.1) = l.map (fun p => p.1) := by
  simp [List.map_map, Function.comp]

theorem restore_create_backup_states (m : Manager) (now : Int) :
    (restore_backup m (create_backup m) now).states = restoredStates m now := by
  unfold restore_backup restoredStates create_backup
  rw [List.map_map]
  rfl

theorem modify_state_failure_eq (m : Manager) (state_id : String)
    (u : StateUpdates) (now : Int) (m' : Manager)
    (h : modify_state m state_id u now = .ok (m', false)) :
    m'.states = restoredStates m now ∧ m'.lastModification = now := by
  simp only [modify_state] at h
  split at h
  · cases h
  · split at h
    · cases h
    · split at h
      · simp at h
      · rw [← restore_create_backup_states m now]
        simp only [Except.ok.injEq, Prod.mk.injEq] at h
        obtain ⟨hm, _⟩ := h
        subst hm
        exact ⟨rfl, rfl⟩

theorem lookupNode_restoredStates (m : Manager) (now : Int) (k : String) :
    lookupNode (restoredStates m now) k =
      (lookupNode m.states k).map (fun n =>
        { createStateNode n.defn now with
          objChildren := (createStateNode n.defn now).defn.children.filterMap
            (fun c => (lookupNode (m.states.map (fun p =>
              (p.1, createStateNode p.2.defn now))) c).map
                (fun nc => nc.defn.id)) }) := by
  unfold restoredStates rebuildStructure
  rw [lookupNode_map, find?_map_keyPres, lookupNode]
  cases m.states.find? (fun p => p.1 = k) <;> rfl

theorem lookupNode_rebuild_obj (states : List (String × Node)) (k : String)
    (n : Node) (h : lookupNode (rebuildStructure states) k = some n) :
    n.objChildren = n.defn.children.filterMap
      (fun c => (lookupNode states c).map (fun nc => nc.defn.id)) := by
  unfold rebuildStructure at h
  rw [lookupNode_map] at h
  cases hfind : states.find? (fun p => p.1 = k) with
  | none => rw [hfind] at h; cases h
  | some p =>
      rw [hfind] at h
      simp only [Option.map_some', Option.some.injEq] at h
      subst h
      rfl

/-- C1 (counterexample): with the reachable tree `exM1` (root plus action
state `a`), the call `modify_state("a", {children: ["missing"]})` fails
validation, yet the post-call tree differs from the pre-call tree: the root's
definition children list was `["a"]` and is `[]` afterwards. -/
theorem modify_state_failed_loses_root_children :
    (add_state (newManager 0) exDefA "root" 0).toOption = some exM1 ∧
    defChildrenOf exM1 "root" = some ["a"] ∧
    (modify_state exM1 "a" { children := some ["missing"] } 100).toOption.map
      (fun r => (r.2, defChildrenOf r.1 "root")) = some (false, some []) := by
  decide

/-- C1 (amended): a `modify_state` that fails validation leaves the registry
equal to the rebuilt restore of the pre-call snapshot: same ids, every
non-ROOT-typed node's definition restored exactly, but every ROOT-typed
node's definition (the root's) replaced by a fresh default `RootState`
definition with an empty children list; the cooldown stamp keeps the failure
time. -/
theorem modify_state_failure_restore (m : Manager) (state_id : String)
    (u : StateUpdates) (now : Int) (m' : Manager)
    (h : modify_state m state_id u now = .ok (m', false)) :
    m'.states = restoredStates m now ∧
    m'.lastModification = now ∧
    stateIds m' = stateIds m ∧
    (∀ k n, lookupNode m.states k = some n → n.defn.type ≠ .root →
      (lookupNode m'.states k).map (fun n' => n'.defn) = some n.defn) ∧
    (∀ k n, lookupNode m.states k = some n → n.defn.type = .root →
      (lookupNode m'.states k).map (fun n' => n'.defn) =
        some (rootStateDefinition now)) := by
  obtain ⟨hs, hl⟩ := modify_state_failure_eq m state_id u now m' h
  refine ⟨hs, hl, ?_, ?_, ?_⟩
  · rw [stateIds, hs]
    unfold restoredStates rebuildStructure
    rw [stateIds_of_map, stateIds_of_map]
    rfl
  · intro k n hn hroot
    rw [hs, lookupNode_restoredStates, hn, Option.map_some', Option.map_some']
    simp [createStateNode, hroot]
  · intro k n hn hroot
    rw [hs, lookupNode_restoredStates, hn, Option.map_some', Option.map_some']
    simp [createStateNode, hroot, rootNode]

theorem modify_state_failure_restore_witness :
    exFailRes.states = restoredStates exM1 100 ∧
    exFailRes.lastModification = 100 ∧
    (lookupNode exFailRes.states "a").map (fun n' => n'.defn) =
      (lookupNode exM1.states "a").map (fun n' => n'.defn) := by
  have hc : modify_state exM1 "a" { children := some ["missing"] } 100 =
      .ok (exFailRes, false) := by rfl
  obtain ⟨h1, h2, _, h4, _⟩ :=
    modify_state_failure_restore exM1 "a" _ 100 exFailRes hc
  refine ⟨h1, h2, ?_⟩
  rw [h4 "a" { defn := exDefA, objChildren := [] } (by decide) (by decide)]
  decide

/-- C2 (counterexample): for the reachable tree `exM1` (root plus `a`,
root's children list `["a"]`), `restore_backup(create_backup())` does not
reproduce the graph: the restored root node's children list is empty,
because `StateFactory.create_state` builds a fresh `RootState()` for the
ROOT type and discards the serialized definition. -/
theorem restore_roundtrip_loses_root_children :
    (add_state (newManager 0) exDefA "root" 0).toOption = some exM1 ∧
    defChildrenOf exM1 "root" = some ["a"] ∧
    defChildrenOf (restore_backup exM1 (create_backup exM1) 0) "root" =
      some [] := by
  decide

/-- C2 (amended): `restore_backup(create_backup())` reproduces the id set
(in order) and restores every non-ROOT-typed node's definition exactly,
rebuilding ownership links from the restored child-id lists; but every
ROOT-typed node — in particular `"root"` — gets a fresh default `RootState`
definition, so its field values (children list included) are not
reproduced. -/
theorem restore_backup_roundtrip (m : Manager) (now : Int) :
    (restore_backup m (create_backup m) now).states = restoredStates m now ∧
    stateIds (restore_backup m (create_backup m) now) = stateIds m ∧
    (∀ k n, lookupNode m.states k = some n → n.defn.type ≠ .root →
      (lookupNode (restore_backup m (create_backup m) now).states k).map
        (fun n' => n'.defn) = some n.defn) ∧
    (∀ k n, lookupNode m.states k = some n → n.defn.type = .root →
      (lookupNode (restore_backup m (create_backup m) now).states k).map
        (fun n' => n'.defn) = some (rootStateDefinition now)) := by
  have hs := restore_create_backup_states m now
  refine ⟨hs, ?_, ?_, ?_⟩
  · rw [stateIds, hs]
    unfold restoredStates rebuildStructure
    rw [stateIds_of_map, stateIds_of_map]
    rfl
  · intro k n hn hroot
    rw [hs, lookupNode_restoredStates, hn, Option.map_some', Option.map_some']
    simp [createStateNode, hroot]
  · intro k n hn hroot
    rw [hs, lookupNode_restoredStates, hn, Option.map_some', Option.map_some']
    simp [createStateNode, hroot, rootNode]

theorem restore_backup_roundtrip_witness :
    (restore_backup exM1 (create_backup exM1) 0).states =
      restoredStates exM1 0 ∧
    stateIds (restore_backup exM1 (create_backup exM1) 0) = stateIds exM1 ∧
    (lookupNode (restore_backup exM1 (create_backup exM1) 0).states "a").map
      (fun n' => n'.defn) = some exDefA := by
  obtain ⟨h1, h2, h3, _⟩ := restore_backup_roundtrip exM1 0
  refine ⟨h1, h2, ?_⟩
  rw [h3 "a" { defn := exDefA, objChildren := [] } (by decide) (by decide)]

theorem updateEntry_eq_map (l : List (String × Node)) (id : String)
    (f : Node → Node) :
    updateEntry l id f =
      l.map (fun p => (p.1, if p.1 = id then f p.2 else p.2)) := by
  unfold updateEntry
  congr 1
  funext p
  by_cases h : p.1 = id <;> simp [h]

theorem modify_state_success_eq (m : Manager) (state_id : String)
    (u : StateUpdates) (now : Int) (m' : Manager)
    (h : modify_state m state_id u now = .ok (m', true)) :
    m'.states = updateEntry m.states state_id (fun n =>
      let d := applyUpdates n.defn u
      { n with defn := { d with metadata := { d.metadata with
          modified_at := now } } }) ∧
    m'.lastModification = now := by
  simp only [modify_state] at h
  split at h
  · cases h
  · split at h
    · cases h
    · split at h
      · simp only [Except.ok.injEq, Prod.mk.injEq] at h
        obtain ⟨hm, _⟩ := h
        subst hm
        exact ⟨rfl, rfl⟩
      · simp at h

/-- C3 (counterexample): from a reachable tree with nodes `b` and `a` under
root, the successful call `modify_state("a", {children: ["b"]})` updates
`a`'s definition children list to `["b"]` while `a`'s attached child-object
list stays `[]` — the ownership list does not mirror `definition.children`
after the operation completes. -/
theorem modify_children_desyncs_ownership :
    (add_state (newManager 0) exDefB "root" 0).toOption = some exMb ∧
    (add_state exMb exDefA "root" 0).toOption = some exMba ∧
    (modify_state exMba "a" { children := some ["b"] } 100).toOption.map
      (fun r => (r.2, defChildrenOf r.1 "a", objChildrenOf r.1 "a")) =
      some (true, some ["b"], some []) := by
  decide

/-- C3 (amended): a successful `modify_state` — including one that updates
the `children` field — leaves every node's child-ownership list exactly as
it was, so the ownership lists mirror the updated `definition.children` only
if they did before; the mirror (restricted to registered ids, in definition
order) is established by the ownership rebuild that `restore_backup` /
`load_states` perform. -/
theorem ownership_mirror_after_rebuild :
    (∀ (m : Manager) (state_id : String) (u : StateUpdates) (now : Int)
      (m' : Manager), modify_state m state_id u now = .ok (m', true) →
      ∀ k, (lookupNode m'.states k).map (fun n => n.objChildren) =
        (lookupNode m.states k).map (fun n => n.objChildren)) ∧
    (∀ (states : List (String × Node)) (k : String) (n : Node),
      lookupNode (rebuildStructure states) k = some n →
      n.objChildren = n.defn.children.filterMap
        (fun c => (lookupNode states c).map (fun nc => nc.defn.id))) := by
  constructor
  · intro m state_id u now m' h k
    obtain ⟨hs, _⟩ := modify_state_success_eq m state_id u now m' h
    rw [hs, updateEntry_eq_map, lookupNode_map, lookupNode]
    cases m.states.find? (fun p => p.1 = k) with
    | none => rfl
    | some p =>
        simp only [Option.map_some']
        by_cases hp : p.1 = state_id <;> simp [hp]
  · exact fun states k n h => lookupNode_rebuild_obj states k n h

theorem ownership_mirror_after_rebuild_witness :
    ((lookupNode exSuccRes.states "root").map (fun n => n.objChildren) =
      (lookupNode exM1.states "root").map (fun n => n.objChildren)) ∧
    exRebuiltRoot.objChildren = exRebuiltRoot.defn.children.filterMap
      (fun c => (lookupNode exM1.states c).map (fun nc => nc.defn.id)) := by
  refine ⟨ownership_mirror_after_rebuild.1 exM1 "a" { name := some "A2" } 100
    exSuccRes (by rfl) "root", ?_⟩
  exact ownership_mirror_after_rebuild.2 exM1.states "root" exRebuiltRoot
    (by rfl)

/-- C4 (counterexample): after a `modify_state` that failed validation (and
therefore returned `False` and modified nothing lastingly), a second
`modify_state` on the same id 10 seconds later — well inside the 60-second
window, with no successful modification in between — fails with the cooldown
`BehaviorTreeError`: the validation-failed call did start a new cooldown
window. -/
theorem failed_validation_starts_cooldown :
    (modify_state exM1 "a" { children := some ["missing"] } 100).toOption.map
      (fun r => (r.2,
        projErr (modify_state r.1 "a" { name := some "A2" } 110))) =
      some (false, some .cooldownActive) := by
  decide

/-- C4 (amended): a `modify_state` on an existing id fails with the cooldown
`BehaviorTreeError` (raised before any mutation) whenever the cooldown
window since `last_modification` has not elapsed; and every `modify_state`
that reaches the update phase — whether it succeeds or fails validation —
stamps `last_modification := now`, starting a new cooldown window. -/
theorem modify_state_cooldown_semantics :
    (∀ (m : Manager) (state_id : String) (u : StateUpdates) (now : Int),
      containsState m.states state_id = true →
      now - m.lastModification < m.modificationCooldown →
      modify_state m state_id u now = .error .cooldownActive) ∧
    (∀ (m : Manager) (state_id : String) (u : StateUpdates) (now : Int)
      (m' : Manager) (b : Bool), modify_state m state_id u now = .ok (m', b) →
      m'.lastModification = now) := by
  constructor
  · intro m state_id u now h1 h2
    rw [modify_state, if_neg (by simpa using h1), if_pos h2]
  · intro m state_id u now m' b h
    simp only [modify_state] at h
    split at h
    · cases h
    · split at h
      · cases h
      · split at h
        · simp only [Except.ok.injEq, Prod.mk.injEq] at h
          obtain ⟨hm, _⟩ := h
          subst hm
          rfl
        · simp only [Except.ok.injEq, Prod.mk.injEq] at h
          obtain ⟨hm, _⟩ := h
          subst hm
          rfl

theorem modify_state_cooldown_semantics_witness :
    modify_state exFailRes "a" { name := some "A2" } 110 =
      .error .cooldownActive ∧
    exSuccRes.lastModification = 100 := by
  refine ⟨modify_state_cooldown_semantics.1 exFailRes "a"
    { name := some "A2" } 110 (by decide) (by decide), ?_⟩
  exact modify_state_cooldown_semantics.2 exM1 "a" { name := some "A2" } 100
    exSuccRes true (by rfl)

/-- C5 (confirmed): a composite with false conditions fails without touching
any child; otherwise it runs exactly the loop `execChildren` over its
children stably sorted by descending priority (a permutation of the
children, ordered by non-increasing priority, with equal-priority children
in original order), and that loop checks the timeout before each dispatch,
aborts with Failure on the first child Failure, aborts with Running on the
first child Running — executing no later sibling either way — and yields
Success when every child succeeded. -/
theorem composite_execute_spec (runner : ActionRunner) (d : StateDefinition)
    (cs : List BTree) (ctx : Ctx) (clk : Int) :
    (canExecute d ctx = false →
      execute runner (.node .composite d cs) ctx clk = (.failure, clk, []) ∧
      execute runner (.node .root d cs) ctx clk = (.failure, clk, [])) ∧
    (canExecute d ctx = true →
      execute runner (.node .composite d cs) ctx clk =
        execChildren runner d ctx clk (sSort (keyBefore childPriority) cs) clk ∧
      execute runner (.node .root d cs) ctx clk =
        execChildren runner d ctx clk (sSort (keyBefore childPriority) cs) clk) ∧
    List.Perm (sSort (keyBefore childPriority) cs) cs ∧
    (sSort (keyBefore childPriority) cs).Pairwise
      (fun a b => childPriority b ≤ childPriority a) ∧
    (∀ p, (sSort (keyBefore childPriority) cs).filter
        (fun c => childPriority c = p) =
      cs.filter (fun c => childPriority c = p)) ∧
    (∀ start clk',
      execChildren runner d ctx start [] clk' = (.success, clk', []) ∧
      (∀ c rest, d.timeout_seconds < clk' - start →
        execChildren runner d ctx start (c :: rest) clk' =
          (.failure, clk', [])) ∧
      (∀ c rest st k tr, ¬ d.timeout_seconds < clk' - start →
        execute runner c ctx clk' = (st, k, tr) →
        (st = .failure →
          execChildren runner d ctx start (c :: rest) clk' =
            (.failure, k, tr)) ∧
        (st = .running →
          execChildren runner d ctx start (c :: rest) clk' =
            (.running, k, tr)) ∧
        (st = .success →
          execChildren runner d ctx start (c :: rest) clk' =
            ((execChildren runner d ctx start rest k).1,
             (execChildren runner d ctx start rest k).2.1,
             tr ++ (execChildren runner d ctx start rest k).2.2)))) := by
  refine ⟨fun h => ⟨?_, ?_⟩, fun h => ⟨?_, ?_⟩,
    sSort_perm _ cs, sSort_key_sorted childPriority cs,
    fun p => sSort_filter_stable childPriority p cs, fun start clk' => ⟨?_, ?_, ?_⟩⟩
  · simp [execute, h]
  · simp [execute, h]
  · simp [execute, h]
  · simp [execute, h]
  · simp [execChildren]
  · intro c rest ht
    simp [execChildren, if_pos ht]
  · intro c rest st k tr ht hexec
    refine ⟨fun hst => ?_, fun hst => ?_, fun hst => ?_⟩ <;>
      (subst hst; simp [execChildren, if_neg ht, hexec])

theorem composite_execute_spec_witness :
    execute placeholderRunner compTree [] 0 =
      execChildren placeholderRunner compDefn [] 0
        (sSort (keyBefore childPriority)
          [.node .action loDefn [], .node .action hiDefn []]) 0 ∧
    execChildren placeholderRunner compDefn [] 0
      (sSort (keyBefore childPriority)
        [.node .action loDefn [], .node .action hiDefn []]) 1000 =
      (.failure, 1000, []) ∧
    execute placeholderRunner compTree [] 0 =
      (.success, 0, [("hi", "hiAct"), ("lo", "loAct")]) := by
  obtain ⟨_, hb, _, _, _, hloop⟩ :=
    composite_execute_spec placeholderRunner compDefn
      [.node .action loDefn [], .node .action hiDefn []] [] 0
  have hss : sSort (keyBefore childPriority)
      [BTree.node .action loDefn [], BTree.node .action hiDefn []] =
      [BTree.node .action hiDefn [], BTree.node .action loDefn []] := by rfl
  refine ⟨(hb (by decide)).1, ?_, ?_⟩
  · rw [hss]
    exact (hloop 0 1000).2.1 _ _ (by decide)
  · unfold compTree
    rw [(hb (by decide)).1, hss]
    simp [execute, execChildren, runActions, canExecute, placeholderRunner,
      compDefn, hiDefn, loDefn]

/-- C6 (confirmed): an action state with any false condition fails
immediately with no action dispatched; with all conditions true it runs the
loop `runActions` over its action identifiers in order, failing at the first
unsuccessful action and at the first post-action timeout, and returning
Success only when every action succeeded and the elapsed time never exceeded
the timeout; concretely, the scenario node `a1` with condition
`"\x7bx\x7d>0"` yields Success under `x = 5` and Failure with an empty
action trace under `x = -1`. -/
theorem action_execute_spec (runner : ActionRunner) (d : StateDefinition)
    (cs : List BTree) (ctx : Ctx) (clk : Int) :
    (canExecute d ctx = false →
      execute runner (.node .action d cs) ctx clk = (.failure, clk, [])) ∧
    (canExecute d ctx = true →
      execute runner (.node .action d cs) ctx clk =
        runActions runner d ctx clk d.actions clk) ∧
    (∀ start clk',
      runActions runner d ctx start [] clk' = (.success, clk', []) ∧
      (∀ a rest ok dur, runner a ctx = (ok, dur) →
        (ok = false →
          runActions runner d ctx start (a :: rest) clk' =
            (.failure, clk' + (dur : Int), [(d.id, a)])) ∧
        (ok = true → d.timeout_seconds < clk' + (dur : Int) - start →
          runActions runner d ctx start (a :: rest) clk' =
            (.failure, clk' + (dur : Int), [(d.id, a)])) ∧
        (ok = true → ¬ d.timeout_seconds < clk' + (dur : Int) - start →
          runActions runner d ctx start (a :: rest) clk' =
            ((runActions runner d ctx start rest (clk' + (dur : Int))).1,
             (runActions runner d ctx start rest (clk' + (dur : Int))).2.1,
             (d.id, a) ::
               (runActions runner d ctx start rest (clk' + (dur : Int))).2.2)))) ∧
    (∀ as start clk₀ clk₁ tr,
      runActions runner d ctx start as clk₀ = (.success, clk₁, tr) →
      tr = as.map (fun a => (d.id, a)) ∧
      (∀ a ∈ as, (runner a ctx).1 = true) ∧
      (as ≠ [] → clk₁ - start ≤ d.timeout_seconds)) ∧
    (execute placeholderRunner a1Tree [("x", 5)] 0 =
      (.success, 0, [("a1", "act1")]) ∧
     execute placeholderRunner a1Tree [("x", -1)] 0 = (.failure, 0, [])) := by
  refine ⟨fun h => by simp [execute, h], fun h => by simp [execute, h],
    fun start clk' => ⟨by simp [runActions], ?_⟩, ?_, ?_, ?_⟩
  · intro a rest ok dur hrun
    refine ⟨fun hok => ?_, fun hok ht => ?_, fun hok ht => ?_⟩
    · subst hok; simp [runActions, hrun]
    · subst hok; simp [runActions, hrun, if_pos ht]
    · subst hok; simp [runActions, hrun, if_neg ht]
  · intro as start
    induction as with
    | nil =>
        intro clk₀ clk₁ tr h
        rw [runActions] at h
        simp only [Prod.mk.injEq] at h
        obtain ⟨-, -, h3⟩ := h
        exact ⟨by simp [← h3], by simp, by simp⟩
    | cons a rest ih =>
        intro clk₀ clk₁ tr h
        rw [runActions] at h
        by_cases hok : (runner a ctx).1 = false
        · rw [if_pos hok] at h
          simp at h
        · rw [if_neg hok] at h
          by_cases ht : d.timeout_seconds <
              clk₀ + ((runner a ctx).2 : Int) - start
          · rw [if_pos ht] at h
            simp at h
          · rw [if_neg ht] at h
            simp only [Prod.mk.injEq] at h
            obtain ⟨h1, h2, h3⟩ := h
            subst h3
            have heq : runActions runner d ctx start rest
                (clk₀ + ((runner a ctx).2 : Int)) =
                (.success, clk₁,
                  (runActions runner d ctx start rest
                    (clk₀ + ((runner a ctx).2 : Int))).2.2) := by
              rw [← h1, ← h2]
            obtain ⟨ih1, ih2, ih3⟩ :=
              ih (clk₀ + ((runner a ctx).2 : Int)) clk₁ _ heq
            refine ⟨by simp [ih1], ?_, fun _ => ?_⟩
            · intro x hx
              rcases List.mem_cons.mp hx with rfl | hx'
              · simpa using hok
              · exact ih2 x hx'
            · by_cases hrest : rest = []
              · subst hrest
                rw [runActions] at h2
                simp at h2
                omega
              · exact ih3 hrest
  · simp [a1Tree, execute, runActions, canExecute, evalCondition,
      placeholderRunner, a1Defn]
  · simp [a1Tree, execute, canExecute, evalCondition, a1Defn]

theorem action_execute_spec_witness :
    execute placeholderRunner a1Tree [("x", 5)] 0 =
      (.success, 0, [("a1", "act1")]) ∧
    execute placeholderRunner a1Tree [("x", -1)] 0 = (.failure, 0, []) ∧
    execute placeholderRunner a1Tree [] 0 = (.failure, 0, []) := by
  obtain ⟨-, -, -, -, hs1, hs2⟩ :=
    action_execute_spec placeholderRunner a1Defn [] [("x", 5)] 0
  obtain ⟨ha0, -⟩ := action_execute_spec placeholderRunner a1Defn [] [] 0
  exact ⟨hs1, hs2, ha0 (by decide)⟩

theorem mem_find_memories (store : List Memory) (mt : Option MemoryType)
    (mi : ℚ) (lim : Nat) (tg : Option (List String)) (x : Memory)
    (h : x ∈ find_memories store mt mi lim tg) :
    x ∈ store ∧ mi ≤ x.importance ∧ ∀ t, mt = some t → x.type = t := by
  have hord : x ∈ (sSort sqlBefore
      (store.filter (rowCriteria mt mi))).take lim := by
    simp only [find_memories] at h
    cases tg with
    | none => exact h
    | some ts =>
        replace h : x ∈ (if ts ≠ [] then
            ((sSort sqlBefore (store.filter (rowCriteria mt mi))).take
              lim).filter (fun m => ts.any fun t => m.tags.contains t)
          else (sSort sqlBefore
            (store.filter (rowCriteria mt mi))).take lim) := h
        by_cases hts : ts ≠ []
        · rw [if_pos hts] at h
          exact List.mem_of_mem_filter h
        · rw [if_neg hts] at h
          exact h
  have hrow := (sSort_perm sqlBefore _).mem_iff.mp
    (List.take_subset _ _ hord)
  obtain ⟨hx, hp⟩ := List.mem_filter.mp hrow
  rw [rowCriteria.eq_def, Bool.and_eq_true] at hp
  refine ⟨hx, of_decide_eq_true hp.1, ?_⟩
  intro t ht
  rw [ht] at hp
  exact of_decide_eq_true hp.2

theorem foldl_storageDelete_eq_filter (ids : List String) (s : List Memory) :
    ids.foldl storageDelete s = s.filter (fun m => ¬ ids.contains m.id) := by
  induction ids generalizing s with
  | nil => simp
  | cons i ids ih =>
      rw [List.foldl_cons, ih, storageDelete, List.filter_filter]
      congr 1
      funext m
      by_cases h1 : m.id = i <;> simp [h1]

theorem point_three_eq : (0.3 : ℚ) = mkRat 3 10 := by norm_num [mkRat]

/-- C7 (confirmed): one consolidation pass removes at most 100 records; the
resulting store is the old store minus exactly the selected ids; and every
selected id belongs to a stored record that is Episodic or Semantic, is
older than 30 days, has importance below 0.3 and access count below 2 — so
no record violating any of these bounds is ever deleted. -/
theorem consolidate_safety (now : Int) (st : MemManagerState)
    (h : (st.store.map (fun m => m.id)).Nodup) :
    (consolidate now st).2 ≤ 100 ∧
    (consolidate now st).1.store = st.store.filter (fun m =>
      ¬ ((consolidateCandidateIds now st.store).take 100).contains m.id) ∧
    (st.store.filter (fun m =>
      ((consolidateCandidateIds now st.store).take 100).contains
        m.id)).length ≤ 100 ∧
    (consolidate now st).1.working = st.working ∧
    (∀ m ∈ st.store,
      m.id ∈ (consolidateCandidateIds now st.store).take 100 →
      (m.type = .episodic ∨ m.type = .semantic) ∧
      m.timestamp < now - 2592000 ∧ m.importance < 0.3 ∧
      m.access_count < 2) := by
  refine ⟨?_, ?_, ?_, rfl, ?_⟩
  · simp only [consolidate]
    exact List.length_take_le 100 (consolidateCandidateIds now st.store)
  · simp [consolidate, foldl_storageDelete_eq_filter]
  · set ids := (consolidateCandidateIds now st.store).take 100 with hids
    set deleted := st.store.filter (fun m => ids.contains m.id) with hdel
    have hnd : (deleted.map (fun m => m.id)).Nodup :=
      ((List.filter_sublist st.store).map (fun m => m.id)).nodup h
    have hsub : deleted.map (fun m => m.id) ⊆ ids := by
      intro i hi
      obtain ⟨m, hm, rfl⟩ := List.mem_map.mp hi
      have := (List.mem_filter.mp hm).2
      simpa using this
    calc deleted.length = (deleted.map (fun m => m.id)).length := by simp
      _ ≤ ids.length := (List.subperm_of_subset hnd hsub).length_le
      _ ≤ 100 := List.length_take_le 100 _
  · intro m hm hid
    have hid' : m.id ∈ consolidateCandidateIds now st.store :=
      List.take_subset _ _ hid
    simp only [consolidateCandidateIds] at hid'
    obtain ⟨c, hc, hcid⟩ := List.mem_map.mp hid'
    have hcond : c ∈ st.store ∧ (c.type = .episodic ∨ c.type = .semantic) ∧
        c.timestamp < now - 30 * 86400 ∧ c.importance < 0.3 ∧
        c.access_count < 2 := by
      rcases List.mem_append.mp hc with hce | hcs
      · obtain ⟨hfind, hflt⟩ := List.mem_filter.mp hce
        obtain ⟨hst, -, hty⟩ := mem_find_memories _ _ _ _ _ _ hfind
        simp only [Bool.and_eq_true, decide_eq_true_eq] at hflt
        exact ⟨hst, Or.inl (hty _ rfl), hflt.1.1,
          point_three_eq ▸ hflt.1.2, hflt.2⟩
      · obtain ⟨hfind, hflt⟩ := List.mem_filter.mp hcs
        obtain ⟨hst, -, hty⟩ := mem_find_memories _ _ _ _ _ _ hfind
        simp only [Bool.and_eq_true, decide_eq_true_eq] at hflt
        exact ⟨hst, Or.inr (hty _ rfl), hflt.1.1,
          point_three_eq ▸ hflt.1.2, hflt.2⟩
    have hcm : c = m :=
      List.inj_on_of_nodup_map h hcond.1 hm hcid
    subst hcm
    refine ⟨hcond.2.1, ?_, hcond.2.2.2⟩
    have := hcond.2.2.1
    omega

theorem consolidate_safety_witness :
    (consolidate 3456000 { store := exMemStore, working := [] }).2 ≤ 100 ∧
    (consolidate 3456000 { store := exMemStore, working := [] }).1.store =
      [exMemKeep] ∧
    ((exMemOld.type = .episodic ∨ exMemOld.type = .semantic) ∧
      exMemOld.timestamp < 3456000 - 2592000 ∧ exMemOld.importance < 0.3 ∧
      exMemOld.access_count < 2) := by
  obtain ⟨h1, h2, -, -, h5⟩ :=
    consolidate_safety 3456000 { store := exMemStore, working := [] }
      (by decide)
  refine ⟨h1, ?_, h5 exMemOld (by decide) (by decide)⟩
  rw [h2]
  decide

/-- C8 (confirmed): `calculate_importance` always lands in `[0, 1]` (the
final clamp guarantees it for every memory and context, including empty tag
and state lists and empty or non-string content), and each relevance
sub-score whose comparison collection on either side is empty contributes
zero to the relevance factor. -/
theorem importance_in_unit_interval (now : Int) (memory : Memory)
    (context : ImportanceContext) :
    0 ≤ calculate_importance now memory context ∧
    calculate_importance now memory context ≤ 1 ∧
    (context.tags = [] ∨ memory.tags = [] →
      tagOverlapTerm memory context = 0) ∧
    (context.current_states = [] ∨ memory.associated_states = [] →
      stateOverlapTerm memory context = 0) ∧
    (context.content = "" → contentOverlapTerm memory context = 0) ∧
    (memory.content = .other → contentOverlapTerm memory context = 0) ∧
    (∀ s, memory.content = .str s →
      (pyWords context.content.toLower).dedup = [] ∨
        (pyWords s.toLower).dedup = [] →
      contentOverlapTerm memory context = 0) := by
  refine ⟨le_max_left 0 _, max_le (by norm_num) (min_le_left 1 _), ?_, ?_,
    ?_, ?_, ?_⟩
  · intro h
    rcases h with h | h <;> simp [tagOverlapTerm, h]
  · intro h
    rcases h with h | h <;> simp [stateOverlapTerm, h]
  · intro h
    rcases hmc : memory.content with s | _ <;>
      simp [contentOverlapTerm, hmc, h]
  · intro h
    simp [contentOverlapTerm, h]
  · intro s hs hsets
    by_cases hcc : context.content = ""
    · rcases hmc : memory.content with s' | _ <;>
        simp [contentOverlapTerm, hmc, hcc]
    · rcases hsets with h | h <;>
        simp [contentOverlapTerm, hs, hcc, h]

theorem importance_in_unit_interval_witness :
    (0 ≤ calculate_importance 0 exMemKeep {} ∧
      calculate_importance 0 exMemKeep {} ≤ 1) ∧
    tagOverlapTerm exMemKeep {} = 0 ∧
    stateOverlapTerm exMemKeep {} = 0 ∧
    contentOverlapTerm exMemKeep {} = 0 := by
  obtain ⟨h1, h2, h3, h4, h5, -, -⟩ :=
    importance_in_unit_interval 0 exMemKeep {}
  exact ⟨⟨h1, h2⟩, h3 (Or.inl rfl), h4 (Or.inl rfl), h5 rfl⟩

/-- C9 (confirmed): storing a Working-type memory touches only the
in-process cache and leaves the durable store unchanged;
`clear_working_memory` empties exactly that cache; and retrieving the stored
id afterwards (its fresh uuid not being a durable id) returns absent and
leaves the state untouched. -/
theorem working_memory_lifecycle (st : MemManagerState) (newId : String)
    (content : MemContent) (tags : List String)
    (context : ImportanceContext) (assoc : List String) (now now2 : Int)
    (h : ∀ m ∈ st.store, m.id ≠ newId) :
    (store_memory st newId content .working tags context assoc now).2.store =
      st.store ∧
    (clear_working_memory
      (store_memory st newId content .working tags context assoc
        now).2).working = [] ∧
    (clear_working_memory
      (store_memory st newId content .working tags context assoc
        now).2).store = st.store ∧
    retrieve_memory (clear_working_memory
        (store_memory st newId content .working tags context assoc now).2)
      newId now2 =
      (none, clear_working_memory
        (store_memory st newId content .working tags context assoc
          now).2) := by
  have hstore :
      (store_memory st newId content .working tags context assoc now).2.store
        = st.store := by
    simp [store_memory]
  have hf : storageRetrieve st.store newId = none := by
    rw [storageRetrieve, List.find?_eq_none]
    intro m hm
    simpa using h m hm
  refine ⟨hstore, rfl, hstore, ?_⟩
  simp [retrieve_memory, clear_working_memory, hstore, hf]

theorem working_memory_lifecycle_witness :
    (store_memory exMemMgr "w1" (.str "note") .working [] {} [] 0).2.store =
      [exMemKeep] ∧
    (retrieve_memory (clear_working_memory
        (store_memory exMemMgr "w1" (.str "note") .working [] {} [] 0).2)
      "w1" 5).1 = none := by
  obtain ⟨h1, -, -, h4⟩ :=
    working_memory_lifecycle exMemMgr "w1" (.str "note") [] {} [] 0 5
      (by decide)
  exact ⟨h1, by rw [h4]⟩

/-- C10 (confirmed): with a non-empty tags argument, `find_memories` applies
the tag filter only after the `LIMIT` has been taken over the rows ordered
by importance then timestamp descending — the result is the tagged subset of
the first `limit` criteria-matching records; concretely, a store holding a
tagged matching record still yields an empty result at limit 1 when the one
record ahead of it carries no tag. -/
theorem find_memories_tag_after_limit (store : List Memory)
    (mt : Option MemoryType) (mi : ℚ) (lim : Nat) (ts : List String)
    (h : ts ≠ []) :
    find_memories store mt mi lim (some ts) =
      ((sSort sqlBefore (store.filter (rowCriteria mt mi))).take lim).filter
        (fun m => ts.any (fun t => m.tags.contains t)) ∧
    find_memories exMemStore none 0 1 (some ["x"]) = [] ∧
    find_memories exMemStore none 0 2 (some ["x"]) = [exMemOld] ∧
    exMemStore.filter (fun m => m.tags.contains "x") = [exMemOld] := by
  refine ⟨?_, by decide, by decide, by decide⟩
  simp [find_memories, if_pos h]

theorem find_memories_tag_after_limit_witness :
    find_memories exMemStore none 0 1 (some ["x"]) =
      ((sSort sqlBefore (exMemStore.filter (rowCriteria none 0))).take
        1).filter (fun m => ["x"].any (fun t => m.tags.contains t)) ∧
    find_memories exMemStore none 0 1 (some ["x"]) = [] := by
  obtain ⟨h1, h2, -, -⟩ :=
    find_memories_tag_after_limit exMemStore none 0 1 ["x"] (by decide)
  exact ⟨h1, h2⟩

end DeltaAgent
